import Mathlib

/-!
Verification of the test-runner core of the vscode-swift extension
(`TestRunner`): the plan builder `createTestLists`, the streaming result
parsers `parseResultDarwin` / `parseResultNonDarwin` (including a faithful
model of the JavaScript regular expressions they use, with greedy
backtracking semantics), the target disambiguation helper
`isTestWithFilenameInTarget`, and the orchestration in `runHandler`.

Conventions of the embedding:
- A `vscode.TestItem` tree node is `TestItem` (id plus children); the weak
  parent back-reference is replaced by an explicit ancestor count carried
  through the work queue, since the source only queries `parent`/`parent.parent`.
- JavaScript `Array.pop` takes the last element; queues are therefore kept
  in stack order (head = next element popped), and pushing a block of
  children corresponds to prepending the reversed child list.
- The reporting sink (`vscode.TestRun`) is modelled as a trace of `SinkCall`
  values; `testRun.end()` is the `SinkCall.ended` constructor.
- JavaScript numbers produced by unary `+` on a captured duration string are
  modelled exactly as rationals; a string that is not a plain decimal
  numeral maps to `none` (standing for NaN).
-/

set_option maxHeartbeats 1000000

/-- A node of the externally owned test tree: stable identifier and ordered
children.  Mirrors the parts of `vscode.TestItem` that `createTestLists`
reads (`id`, `children`); the `parent` back-reference is modelled by the
ancestor count carried next to each queued node. -/
inductive TestItem where
  | mk (id : String) (children : List TestItem)

mutual

def TestItem.decEq : (a b : TestItem) → Decidable (a = b)
  | TestItem.mk i cs, TestItem.mk j ds =>
    match String.decEq i j with
    | isFalse h => isFalse (by intro he; cases he; exact h rfl)
    | isTrue hi =>
      match TestItem.decEqList cs ds with
      | isFalse h => isFalse (by intro he; cases he; exact h rfl)
      | isTrue hl => isTrue (by rw [hi, hl])

def TestItem.decEqList : (a b : List TestItem) → Decidable (a = b)
  | [], [] => isTrue rfl
  | [], _ :: _ => isFalse (by simp)
  | _ :: _, [] => isFalse (by simp)
  | a :: as, b :: bs =>
    match TestItem.decEq a b with
    | isFalse h => isFalse (by simp [h])
    | isTrue h1 =>
      match TestItem.decEqList as bs with
      | isFalse h => isFalse (by simp [h])
      | isTrue h2 => isTrue (by rw [h1, h2])

end

instance : DecidableEq TestItem := TestItem.decEq

def TestItem.id : TestItem → String
  | TestItem.mk i _ => i

def TestItem.children : TestItem → List TestItem
  | TestItem.mk _ cs => cs

mutual

/-- Number of nodes in the subtree rooted at a test item (used as the
termination measure of the work-queue loop). -/
def TestItem.size : TestItem → Nat
  | TestItem.mk _ cs => 1 + TestItem.sizeList cs

def TestItem.sizeList : List TestItem → Nat
  | [] => 0
  | c :: cs => TestItem.size c + TestItem.sizeList cs

end

mutual

/-- All nodes of the subtree rooted at an item, the item itself included. -/
def subtreeNodes : TestItem → List TestItem
  | TestItem.mk i cs => TestItem.mk i cs :: subtreeNodesList cs

def subtreeNodesList : List TestItem → List TestItem
  | [] => []
  | c :: cs => subtreeNodes c ++ subtreeNodesList cs

end

/-- All nodes of a forest (the controller's root items and everything below). -/
def forestNodes (roots : List TestItem) : List TestItem :=
  subtreeNodesList roots

/-- The strict descendants of an item (its subtree without the item itself). -/
def strictSubtreeNodes (t : TestItem) : List TestItem :=
  subtreeNodesList t.children

/-- JavaScript `s.startsWith(pre)`: the character sequence of `pre` is a
prefix of that of `s` (modelled over the character lists so that it is fully
computable by the kernel). -/
def jsStartsWith (s pre : String) : Bool :=
  List.isPrefixOf pre.data s.data

/-- JavaScript `s.endsWith(suf)`: the character sequence of `suf` is a
suffix of that of `s`. -/
def jsEndsWith (s suf : String) : Bool :=
  List.isSuffixOf suf.data s.data

/-- Source line 112-114: `this.request.exclude?.find(item => item.id.startsWith(test.id))`,
as a boolean: some excluded node's id starts with (extends) the id of `test`. -/
def excludeHasIdStartingWith (exclude : List TestItem) (test : TestItem) : Bool :=
  exclude.any fun item => jsStartsWith item.id test.id

/-- The branch taken by one iteration of the first work-queue loop of
`createTestLists` (source lines 97-129) for a popped node together with its
ancestor count: drop it when the request excludes it verbatim; accept a
test-case node (exactly one ancestor, `test.parent && !test.parent?.parent`)
wholesale unless an excluded id extends its id; otherwise expand its
children onto the queue, or emit it as a leaf. -/
inductive Loop1Action where
  | drop
  | acceptCase
  | expand
  | leaf
deriving DecidableEq, Repr

def loop1Step (exclude : List TestItem) (test : TestItem) (depth : Nat) : Loop1Action :=
  if test ∈ exclude then Loop1Action.drop
  else if depth == 1 && !(excludeHasIdStartingWith exclude test) then Loop1Action.acceptCase
  else if !test.children.isEmpty then Loop1Action.expand
  else Loop1Action.leaf

/-- Total size of the items still on the primary queue; strictly decreases at
every iteration of `loop1`. -/
def queueSize : List (TestItem × Nat) → Nat
  | [] => 0
  | (t, _) :: rest => TestItem.size t + queueSize rest

theorem sizeList_append (a b : List TestItem) :
    TestItem.sizeList (a ++ b) = TestItem.sizeList a + TestItem.sizeList b := by
  induction a with
  | nil => simp [TestItem.sizeList]
  | cons c cs ih => simp [TestItem.sizeList, ih]; omega

theorem sizeList_reverse (l : List TestItem) :
    TestItem.sizeList l.reverse = TestItem.sizeList l := by
  induction l with
  | nil => rfl
  | cons c cs ih => simp [TestItem.sizeList, List.reverse_cons, sizeList_append, ih]; omega

theorem queueSize_append (a b : List (TestItem × Nat)) :
    queueSize (a ++ b) = queueSize a + queueSize b := by
  induction a with
  | nil => simp [queueSize]
  | cons p ps ih => cases p; simp [queueSize, ih]; omega

theorem queueSize_map (l : List TestItem) (d : Nat) :
    queueSize (l.map (fun c => (c, d))) = TestItem.sizeList l := by
  induction l with
  | nil => rfl
  | cons c cs ih => simp [queueSize, TestItem.sizeList, ih]

theorem queueSize_reverse (l : List (TestItem × Nat)) :
    queueSize l.reverse = queueSize l := by
  induction l with
  | nil => rfl
  | cons p ps ih =>
      cases p; simp [queueSize, List.reverse_cons, queueSize_append, ih]; omega

theorem TestItem.size_pos (t : TestItem) : 0 < t.size := by
  cases t; simp [TestItem.size]

/-- First work-queue loop of `createTestLists` (source lines 97-129), with
the queue in stack order (head is the element `pop()` returns next).
Returns the result list built so far and the second queue of test-case
children (`queue2`, in push order). -/
def loop1 (exclude : List TestItem) :
    List (TestItem × Nat) → List TestItem → List TestItem → List TestItem × List TestItem
  | [], list, queue2 => (list, queue2)
  | (test, depth) :: rest, list, queue2 =>
    match loop1Step exclude test depth with
    | Loop1Action.drop => loop1 exclude rest list queue2
    | Loop1Action.acceptCase =>
        loop1 exclude rest (list ++ [test]) (queue2 ++ test.children)
    | Loop1Action.expand =>
        loop1 exclude (test.children.reverse.map (fun c => (c, depth + 1)) ++ rest) list queue2
    | Loop1Action.leaf => loop1 exclude rest (list ++ [test]) queue2
termination_by q _ _ => queueSize q
decreasing_by
  · cases test with
    | mk i cs => simp [queueSize]; have := TestItem.size_pos (TestItem.mk i cs); omega
  · simp [queueSize]; have := TestItem.size_pos test; omega
  · cases test with
    | mk i cs =>
        simp [queueSize, queueSize_append, queueSize_map, queueSize_reverse,
          sizeList_reverse, TestItem.children, TestItem.size]
  · simp [queueSize]; have := TestItem.size_pos test; omega

/-- Second loop of `createTestLists` (source lines 143-152): drain `queue2`
(given here already in pop order), skipping excluded items and appending the
rest to the result list. -/
def loop2 (exclude : List TestItem) : List TestItem → List TestItem → List TestItem
  | [], list => list
  | t :: rest, list =>
    if t ∈ exclude then loop2 exclude rest list
    else loop2 exclude rest (list ++ [t])

/-- Initial primary queue (source lines 85-92): the included items if any
were requested, otherwise every root of the controller; reversed because the
loop pops from the end of the array. -/
def initialQueue (roots : List TestItem) (includeList : List (TestItem × Nat)) :
    List (TestItem × Nat) :=
  if includeList ≠ [] then includeList.reverse
  else (roots.map (fun t => (t, 0))).reverse

/-- The result list of `createTestLists` as it stands after the primary
queue has drained but before `queue2` is drained; its ids become the XCTest
filter arguments when the request was filtered. -/
def preDrainList (roots : List TestItem) (includeList : List (TestItem × Nat))
    (exclude : List TestItem) : List TestItem :=
  (loop1 exclude (initialQueue roots includeList) [] []).1

/-- Output of `createTestLists`: the pending-test list handed to the parsers
and the XCTest filter arguments. -/
structure TestLists where
  testItems : List TestItem
  testArgs : List String
deriving DecidableEq

/-- `TestRunner.createTestLists` (source lines 84-154).  `includeList`
carries each explicitly included node together with its ancestor count in
the tree (the source reads this off the `parent` chain). -/
def createTestLists (roots : List TestItem) (includeList : List (TestItem × Nat))
    (exclude : List TestItem) : TestLists :=
  let r := loop1 exclude (initialQueue roots includeList) [] []
  let argumentList :=
    if includeList ≠ [] ∨ exclude ≠ [] then r.1.map TestItem.id else []
  { testItems := loop2 exclude r.2.reverse r.1, testArgs := argumentList }

theorem loop1_nil (ex : List TestItem) (l q2 : List TestItem) :
    loop1 ex [] l q2 = (l, q2) := by
  rw [loop1]

theorem loop1_cons_drop (ex : List TestItem) (t : TestItem) (d : Nat)
    (rest : List (TestItem × Nat)) (l q2 : List TestItem)
    (h : loop1Step ex t d = Loop1Action.drop) :
    loop1 ex ((t, d) :: rest) l q2 = loop1 ex rest l q2 := by
  rw [loop1, h]

theorem loop1_cons_accept (ex : List TestItem) (t : TestItem) (d : Nat)
    (rest : List (TestItem × Nat)) (l q2 : List TestItem)
    (h : loop1Step ex t d = Loop1Action.acceptCase) :
    loop1 ex ((t, d) :: rest) l q2 = loop1 ex rest (l ++ [t]) (q2 ++ t.children) := by
  rw [loop1, h]

theorem loop1_cons_expand (ex : List TestItem) (t : TestItem) (d : Nat)
    (rest : List (TestItem × Nat)) (l q2 : List TestItem)
    (h : loop1Step ex t d = Loop1Action.expand) :
    loop1 ex ((t, d) :: rest) l q2
      = loop1 ex (t.children.reverse.map (fun c => (c, d + 1)) ++ rest) l q2 := by
  rw [loop1, h]

theorem loop1_cons_leaf (ex : List TestItem) (t : TestItem) (d : Nat)
    (rest : List (TestItem × Nat)) (l q2 : List TestItem)
    (h : loop1Step ex t d = Loop1Action.leaf) :
    loop1 ex ((t, d) :: rest) l q2 = loop1 ex rest (l ++ [t]) q2 := by
  rw [loop1, h]

theorem loop1Step_drop_of_mem (ex : List TestItem) (t : TestItem) (d : Nat)
    (h : t ∈ ex) : loop1Step ex t d = Loop1Action.drop := by
  simp [loop1Step, h]

theorem loop1Step_not_drop_not_mem (ex : List TestItem) (t : TestItem) (d : Nat)
    (h : loop1Step ex t d ≠ Loop1Action.drop) : t ∉ ex := by
  intro hm
  exact h (loop1Step_drop_of_mem ex t d hm)

theorem loop1Step_leaf_of (ex : List TestItem) (t : TestItem) (d : Nat)
    (h1 : t ∉ ex) (h2 : (d == 1 && !excludeHasIdStartingWith ex t) = false)
    (h3 : t.children = []) : loop1Step ex t d = Loop1Action.leaf := by
  simp [loop1Step, h1, h2, h3]

theorem loop1Step_expand_of (ex : List TestItem) (t : TestItem) (d : Nat)
    (h1 : t ∉ ex) (h2 : (d == 1 && !excludeHasIdStartingWith ex t) = false)
    (h3 : t.children ≠ []) : loop1Step ex t d = Loop1Action.expand := by
  simp [loop1Step, h1, h2, h3]

theorem loop1Step_accept_of (ex : List TestItem) (t : TestItem)
    (h1 : t ∉ ex) (h2 : excludeHasIdStartingWith ex t = false) :
    loop1Step ex t 1 = Loop1Action.acceptCase := by
  simp [loop1Step, h1, h2]

/-- The wholesale-acceptance branch for a case node fires exactly when the
node is not excluded verbatim and no excluded node's id extends its id. -/
theorem loop1Step_acceptCase_iff (ex : List TestItem) (t : TestItem) :
    loop1Step ex t 1 = Loop1Action.acceptCase ↔
      (t ∉ ex ∧ ∀ item ∈ ex, jsStartsWith item.id t.id = false) := by
  by_cases hm : t ∈ ex
  · simp [loop1Step, hm]
  · by_cases hp : excludeHasIdStartingWith ex t
    · simp only [loop1Step, if_neg hm, hp, Bool.not_true, Bool.and_false,
        Bool.false_eq_true, if_false]
      constructor
      · intro h
        split at h <;> simp_all
      · intro ⟨_, hall⟩
        exfalso
        rcases List.any_eq_true.mp hp with ⟨item, hitem, hsw⟩
        rw [hall item hitem] at hsw
        exact Bool.false_ne_true hsw
    · have hp' : excludeHasIdStartingWith ex t = false := by
        simpa using hp
      simp only [loop1Step, if_neg hm, hp', Bool.not_false, Bool.and_true, beq_self_eq_true,
        if_true]
      constructor
      · intro _
        refine ⟨hm, fun item hitem => ?_⟩
        by_contra hne
        have : excludeHasIdStartingWith ex t = true :=
          List.any_eq_true.mpr ⟨item, hitem, by simpa using hne⟩
        rw [hp'] at this
        exact Bool.false_ne_true this
      · intro _; trivial

/-- The items pushed onto the result list and onto `queue2` by the primary
loop all satisfy any predicate that holds of the initial queue entries and is
inherited by the children of non-excluded items. -/
theorem loop1_good (ex : List TestItem) (G : TestItem → Prop)
    (hstep : ∀ t, G t → t ∉ ex → ∀ x ∈ t.children, G x) :
    ∀ q list q2, (∀ p ∈ q, G p.1) → (∀ x ∈ list, G x) → (∀ x ∈ q2, G x) →
      (∀ x ∈ (loop1 ex q list q2).1, G x) ∧ (∀ x ∈ (loop1 ex q list q2).2, G x) := by
  intro q list q2
  induction q, list, q2 using loop1.induct ex with
  | case1 list q2 =>
      intro _ hl hq2
      rw [loop1_nil]
      exact ⟨hl, hq2⟩
  | case2 t d rest list q2 h ih =>
      intro hq hl hq2
      rw [loop1_cons_drop _ _ _ _ _ _ h]
      exact ih (fun p hp => hq p (List.mem_cons_of_mem _ hp)) hl hq2
  | case3 t d rest list q2 h ih =>
      intro hq hl hq2
      rw [loop1_cons_accept _ _ _ _ _ _ h]
      have hGt : G t := hq (t, d) (List.mem_cons_self _ _)
      have hnot : t ∉ ex := loop1Step_not_drop_not_mem ex t d (by rw [h]; simp)
      refine ih (fun p hp => hq p (List.mem_cons_of_mem _ hp)) ?_ ?_
      · intro x hx
        rcases List.mem_append.mp hx with hx | hx
        · exact hl x hx
        · rw [List.mem_singleton.mp hx]; exact hGt
      · intro x hx
        rcases List.mem_append.mp hx with hx | hx
        · exact hq2 x hx
        · exact hstep t hGt hnot x hx
  | case4 t d rest list q2 h ih =>
      intro hq hl hq2
      rw [loop1_cons_expand _ _ _ _ _ _ h]
      have hGt : G t := hq (t, d) (List.mem_cons_self _ _)
      have hnot : t ∉ ex := loop1Step_not_drop_not_mem ex t d (by rw [h]; simp)
      refine ih ?_ hl hq2
      intro p hp
      rcases List.mem_append.mp hp with hp | hp
      · rcases List.mem_map.mp hp with ⟨c, hc, hpc⟩
        rw [← hpc]
        exact hstep t hGt hnot c (List.mem_reverse.mp hc)
      · exact hq p (List.mem_cons_of_mem _ hp)
  | case5 t d rest list q2 h ih =>
      intro hq hl hq2
      rw [loop1_cons_leaf _ _ _ _ _ _ h]
      have hGt : G t := hq (t, d) (List.mem_cons_self _ _)
      refine ih (fun p hp => hq p (List.mem_cons_of_mem _ hp)) ?_ hq2
      intro x hx
      rcases List.mem_append.mp hx with hx | hx
      · exact hl x hx
      · rw [List.mem_singleton.mp hx]; exact hGt

/-- Every entry of the result list built by the primary loop escaped the
verbatim exclusion check. -/
theorem loop1_list_not_excluded (ex : List TestItem) :
    ∀ q list q2, (∀ x ∈ list, x ∉ ex) →
      ∀ x ∈ (loop1 ex q list q2).1, x ∉ ex := by
  intro q list q2
  induction q, list, q2 using loop1.induct ex with
  | case1 list q2 =>
      intro hl
      rw [loop1_nil]
      exact hl
  | case2 t d rest list q2 h ih =>
      intro hl
      rw [loop1_cons_drop _ _ _ _ _ _ h]
      exact ih hl
  | case3 t d rest list q2 h ih =>
      intro hl
      rw [loop1_cons_accept _ _ _ _ _ _ h]
      have hnot : t ∉ ex := loop1Step_not_drop_not_mem ex t d (by rw [h]; simp)
      refine ih ?_
      intro x hx
      rcases List.mem_append.mp hx with hx | hx
      · exact hl x hx
      · rw [List.mem_singleton.mp hx]; exact hnot
  | case4 t d rest list q2 h ih =>
      intro hl
      rw [loop1_cons_expand _ _ _ _ _ _ h]
      exact ih hl
  | case5 t d rest list q2 h ih =>
      intro hl
      rw [loop1_cons_leaf _ _ _ _ _ _ h]
      have hnot : t ∉ ex := loop1Step_not_drop_not_mem ex t d (by rw [h]; simp)
      refine ih ?_
      intro x hx
      rcases List.mem_append.mp hx with hx | hx
      · exact hl x hx
      · rw [List.mem_singleton.mp hx]; exact hnot

theorem loop2_mem (ex : List TestItem) :
    ∀ q l, ∀ x ∈ loop2 ex q l, x ∈ l ∨ x ∈ q := by
  intro q
  induction q with
  | nil =>
      intro l x hx
      exact Or.inl hx
  | cons t rest ih =>
      intro l x hx
      rw [loop2] at hx
      split at hx
      · rcases ih l x hx with h | h
        · exact Or.inl h
        · exact Or.inr (List.mem_cons_of_mem _ h)
      · rcases ih (l ++ [t]) x hx with h | h
        · rcases List.mem_append.mp h with h | h
          · exact Or.inl h
          · exact Or.inr (by rw [List.mem_singleton.mp h]; exact List.mem_cons_self _ _)
        · exact Or.inr (List.mem_cons_of_mem _ h)

theorem loop2_not_excluded (ex : List TestItem) :
    ∀ q l, (∀ x ∈ l, x ∉ ex) → ∀ x ∈ loop2 ex q l, x ∉ ex := by
  intro q
  induction q with
  | nil =>
      intro l hl x hx
      exact hl x hx
  | cons t rest ih =>
      intro l hl x hx
      rw [loop2] at hx
      split at hx
      · exact ih l hl x hx
      next hne =>
        refine ih (l ++ [t]) ?_ x hx
        intro y hy
        rcases List.mem_append.mp hy with hy | hy
        · exact hl y hy
        · rw [List.mem_singleton.mp hy]; exact hne

theorem loop2_acc (ex : List TestItem) :
    ∀ q l, loop2 ex q l = l ++ loop2 ex q [] := by
  intro q
  induction q with
  | nil => intro l; simp [loop2]
  | cons t rest ih =>
      intro l
      rw [loop2, loop2]
      split
      · exact ih l
      · rw [ih (l ++ [t]), List.nil_append, ih [t]]
        simp

/-- A node the request excludes verbatim is never part of the final
pending-test list. -/
theorem createTestLists_excluded_not_mem (roots : List TestItem)
    (includeList : List (TestItem × Nat)) (exclude : List TestItem) (m : TestItem)
    (hm : m ∈ exclude) : m ∉ (createTestLists roots includeList exclude).testItems := by
  intro hmem
  have h1 : ∀ x ∈ (loop1 exclude (initialQueue roots includeList) [] []).1, x ∉ exclude :=
    loop1_list_not_excluded exclude _ [] [] (by intro x hx; cases hx)
  have h2 := loop2_not_excluded exclude
    (loop1 exclude (initialQueue roots includeList) [] []).2.reverse
    (loop1 exclude (initialQueue roots includeList) [] []).1 h1 m hmem
  exact h2 hm

theorem self_mem_subtreeNodes (t : TestItem) : t ∈ subtreeNodes t := by
  cases t
  rw [subtreeNodes]
  exact List.mem_cons_self _ _

theorem mem_subtreeNodesList (l : List TestItem) (x : TestItem) :
    x ∈ subtreeNodesList l ↔ ∃ t ∈ l, x ∈ subtreeNodes t := by
  induction l with
  | nil => simp [subtreeNodesList]
  | cons c cs ih =>
      rw [subtreeNodesList]
      simp only [List.mem_append, ih, List.mem_cons]
      constructor
      · intro h
        rcases h with h | ⟨t, ht, hx⟩
        · exact ⟨c, Or.inl rfl, h⟩
        · exact ⟨t, Or.inr ht, hx⟩
      · intro ⟨t, ht, hx⟩
        rcases ht with rfl | ht
        · exact Or.inl hx
        · exact Or.inr ⟨t, ht, hx⟩

mutual

theorem subtree_trans : ∀ (t s x : TestItem),
    s ∈ subtreeNodes t → x ∈ subtreeNodes s → x ∈ subtreeNodes t
  | TestItem.mk i cs, s, x, hs, hx => by
    rw [subtreeNodes] at hs ⊢
    rcases List.mem_cons.mp hs with rfl | hs
    · exact hx
    · exact List.mem_cons_of_mem _ (subtreeList_trans cs s x hs hx)

theorem subtreeList_trans : ∀ (l : List TestItem) (s x : TestItem),
    s ∈ subtreeNodesList l → x ∈ subtreeNodes s → x ∈ subtreeNodesList l
  | c :: cs, s, x, hs, hx => by
    rw [subtreeNodesList] at hs ⊢
    rcases List.mem_append.mp hs with h | h
    · exact List.mem_append.mpr (Or.inl (subtree_trans c s x h hx))
    · exact List.mem_append.mpr (Or.inr (subtreeList_trans cs s x h hx))

end

mutual

theorem parent_in_subtree : ∀ (t x : TestItem), x ∈ subtreeNodes t →
    x = t ∨ ∃ p ∈ subtreeNodes t, x ∈ p.children
  | TestItem.mk i cs, x, hx => by
    rw [subtreeNodes] at hx
    rcases List.mem_cons.mp hx with rfl | hx
    · exact Or.inl rfl
    · rcases parent_in_subtreeList cs x hx with ⟨t, ht, rfl⟩ | ⟨p, hp, hxp⟩
      · refine Or.inr ⟨TestItem.mk i cs, self_mem_subtreeNodes _, ?_⟩
        exact ht
      · exact Or.inr ⟨p, by rw [subtreeNodes]; exact List.mem_cons_of_mem _ hp, hxp⟩

theorem parent_in_subtreeList : ∀ (l : List TestItem) (x : TestItem),
    x ∈ subtreeNodesList l →
    (∃ t ∈ l, x = t) ∨ ∃ p ∈ subtreeNodesList l, x ∈ p.children
  | c :: cs, x, hx => by
    rw [subtreeNodesList] at hx ⊢
    rcases List.mem_append.mp hx with h | h
    · rcases parent_in_subtree c x h with rfl | ⟨p, hp, hxp⟩
      · exact Or.inl ⟨x, List.mem_cons_self _ _, rfl⟩
      · exact Or.inr ⟨p, List.mem_append.mpr (Or.inl hp), hxp⟩
    · rcases parent_in_subtreeList cs x h with ⟨t, ht, rfl⟩ | ⟨p, hp, hxp⟩
      · exact Or.inl ⟨x, List.mem_cons_of_mem _ ht, rfl⟩
      · exact Or.inr ⟨p, List.mem_append.mpr (Or.inr hp), hxp⟩

end

theorem subtreeNodes_eq_self_or_strict (c x : TestItem) :
    x ∈ subtreeNodes c ↔ x = c ∨ x ∈ strictSubtreeNodes c := by
  cases c
  rw [subtreeNodes, strictSubtreeNodes, List.mem_cons]
  rfl

theorem strict_subtree_parent (c x : TestItem) (h : x ∈ strictSubtreeNodes c) :
    ∃ p ∈ subtreeNodes c, x ∈ p.children := by
  rw [strictSubtreeNodes] at h
  rcases parent_in_subtreeList c.children x h with ⟨t, ht, rfl⟩ | ⟨p, hp, hxp⟩
  · exact ⟨c, self_mem_subtreeNodes c, ht⟩
  · refine ⟨p, ?_, hxp⟩
    rw [subtreeNodes_eq_self_or_strict, strictSubtreeNodes]
    exact Or.inr hp

theorem root_mem_forest (roots : List TestItem) (r : TestItem) (hr : r ∈ roots) :
    r ∈ forestNodes roots := by
  rw [forestNodes, mem_subtreeNodesList]
  exact ⟨r, hr, self_mem_subtreeNodes r⟩

theorem forest_closed (roots : List TestItem) (t x : TestItem)
    (ht : t ∈ forestNodes roots) (hx : x ∈ subtreeNodes t) : x ∈ forestNodes roots := by
  rw [forestNodes] at ht ⊢
  exact subtreeList_trans roots t x ht hx

theorem child_mem_subtreeNodes (t x : TestItem) (hx : x ∈ t.children) :
    x ∈ subtreeNodes t := by
  rw [subtreeNodes_eq_self_or_strict, strictSubtreeNodes]
  exact Or.inr ((mem_subtreeNodesList _ _).mpr ⟨x, hx, self_mem_subtreeNodes x⟩)

/-- Running the primary loop over a stack of childless nodes at a non-case
depth simply filters out the excluded ones, in stack order. -/
theorem loop1_leaves (ex : List TestItem) (d : Nat) (hd : (d == 1) = false) :
    ∀ (l list q2 : List TestItem), (∀ x ∈ l, x.children = []) →
      loop1 ex (l.map (fun c => (c, d))) list q2
        = (list ++ l.filter (fun x => decide (x ∉ ex)), q2) := by
  intro l
  induction l with
  | nil =>
      intro list q2 _
      simp [loop1_nil]
  | cons c cs ih =>
      intro list q2 hleaf
      rw [List.map_cons]
      by_cases hc : c ∈ ex
      · rw [loop1_cons_drop _ _ _ _ _ _ (loop1Step_drop_of_mem ex c d hc)]
        rw [ih list q2 (fun x hx => hleaf x (List.mem_cons_of_mem _ hx))]
        simp [List.filter_cons, hc]
      · have hstep : loop1Step ex c d = Loop1Action.leaf := by
          refine loop1Step_leaf_of ex c d hc ?_ (hleaf c (List.mem_cons_self _ _))
          rw [hd]
          rfl
        rw [loop1_cons_leaf _ _ _ _ _ _ hstep]
        rw [ih (list ++ [c]) q2 (fun x hx => hleaf x (List.mem_cons_of_mem _ hx))]
        simp [List.filter_cons, hc]

theorem createTestLists_eq (roots : List TestItem) (includeList : List (TestItem × Nat))
    (exclude : List TestItem) :
    createTestLists roots includeList exclude =
      { testItems := loop2 exclude (loop1 exclude (initialQueue roots includeList) [] []).2.reverse
          (loop1 exclude (initialQueue roots includeList) [] []).1,
        testArgs := if includeList ≠ [] ∨ exclude ≠ [] then
          (loop1 exclude (initialQueue roots includeList) [] []).1.map TestItem.id else [] } :=
  rfl

/-- In a well-formed tree (no node is a child of two distinct forest nodes,
no root lies strictly below the excluded case), excluding a case-level node
verbatim keeps the case and its whole strict subtree out of the pending-test
list, provided no included node lies strictly below the case. -/
theorem createTestLists_case_exclusion (roots : List TestItem)
    (includeList : List (TestItem × Nat)) (exclude : List TestItem) (c : TestItem)
    (hcex : c ∈ exclude) (hcf : c ∈ forestNodes roots)
    (huniq : ∀ p ∈ forestNodes roots, ∀ q ∈ forestNodes roots,
      ∀ x ∈ p.children, x ∈ q.children → p = q)
    (hroots : ∀ r ∈ roots, r ∉ strictSubtreeNodes c)
    (hinc : ∀ pr ∈ includeList, pr.1 ∈ forestNodes roots ∧ pr.1 ∉ strictSubtreeNodes c) :
    ∀ x ∈ (createTestLists roots includeList exclude).testItems,
      x ≠ c ∧ x ∉ strictSubtreeNodes c := by
  intro x hx
  have hG := loop1_good exclude
    (fun t => t ∈ forestNodes roots ∧ t ∉ strictSubtreeNodes c)
    (by
      intro t ht hte y hy
      constructor
      · exact forest_closed roots t y ht.1 (child_mem_subtreeNodes t y hy)
      · intro hyc
        obtain ⟨p, hp, hyp⟩ := strict_subtree_parent c y hyc
        have hpf : p ∈ forestNodes roots := forest_closed roots c p hcf hp
        have hpt : p = t := huniq p hpf t ht.1 y hyp hy
        rw [hpt] at hp
        rcases (subtreeNodes_eq_self_or_strict c t).mp hp with rfl | hstrict
        · exact hte hcex
        · exact ht.2 hstrict)
    (initialQueue roots includeList) [] []
    (by
      intro p hp
      rw [initialQueue] at hp
      split at hp
      · exact hinc p (List.mem_reverse.mp hp)
      · rcases List.mem_map.mp (List.mem_reverse.mp hp) with ⟨r, hr, hpr⟩
        rw [← hpr]
        exact ⟨root_mem_forest roots r hr, hroots r hr⟩)
    (by intro y hy; cases hy)
    (by intro y hy; cases hy)
  have hxm : x ∈ (loop1 exclude (initialQueue roots includeList) [] []).1 ∨
      x ∈ (loop1 exclude (initialQueue roots includeList) [] []).2.reverse := by
    rw [createTestLists_eq] at hx
    exact loop2_mem exclude _ _ x hx
  have hGx : x ∈ forestNodes roots ∧ x ∉ strictSubtreeNodes c := by
    rcases hxm with h | h
    · exact hG.1 x h
    · exact hG.2 x (List.mem_reverse.mp h)
  refine ⟨?_, hGx.2⟩
  intro hxc
  rw [hxc] at hx
  exact createTestLists_excluded_not_mem roots includeList exclude c hcex hx

/-- Excluding a single childless method under a case node whose id the
method's id extends: the plan keeps exactly the remaining methods (in stack
order) and no longer contains the case node itself. -/
theorem createTestLists_method_exclusion (mid cid : String) (cs : List TestItem)
    (m : TestItem) (hm : m ∈ cs) (hleaf : ∀ x ∈ cs, x.children = [])
    (hpre : jsStartsWith m.id cid = true) :
    (createTestLists [TestItem.mk mid [TestItem.mk cid cs]] [] [m]).testItems
        = cs.reverse.filter (fun x => decide (x ≠ m))
      ∧ TestItem.mk cid cs ∉
        (createTestLists [TestItem.mk mid [TestItem.mk cid cs]] [] [m]).testItems := by
  have hMm : TestItem.mk mid [TestItem.mk cid cs] ≠ m := by
    intro he
    have h1 := hleaf m hm
    rw [← he] at h1
    simp [TestItem.children] at h1
  have hCm : TestItem.mk cid cs ≠ m := by
    intro he
    have h1 := hleaf m hm
    rw [← he] at h1
    rw [TestItem.children] at h1
    rw [← he, h1] at hm
    cases hm
  have q0 : initialQueue [TestItem.mk mid [TestItem.mk cid cs]] [] =
      [(TestItem.mk mid [TestItem.mk cid cs], 0)] := by
    rw [initialQueue]
    simp
  have s1 : loop1Step [m] (TestItem.mk mid [TestItem.mk cid cs]) 0 = Loop1Action.expand := by
    refine loop1Step_expand_of _ _ _ ?_ rfl ?_
    · simp [hMm]
    · rw [TestItem.children]; simp
  have s2 : loop1Step [m] (TestItem.mk cid cs) 1 = Loop1Action.expand := by
    refine loop1Step_expand_of _ _ _ ?_ ?_ ?_
    · simp [hCm]
    · have hC : (TestItem.mk cid cs).id = cid := rfl
      simp only [excludeHasIdStartingWith, List.any_cons, List.any_nil, hC, hpre,
        Bool.or_false, Bool.not_true, Bool.and_false]
    · rw [TestItem.children]
      intro he
      rw [he] at hm
      cases hm
  have l1 : loop1 [m] [(TestItem.mk mid [TestItem.mk cid cs], 0)] [] []
      = (cs.reverse.filter (fun x => decide (x ≠ m)), []) := by
    rw [loop1_cons_expand _ _ _ _ _ _ s1]
    show loop1 [m] [(TestItem.mk cid cs, 1)] [] [] = _
    rw [loop1_cons_expand _ _ _ _ _ _ s2, List.append_nil]
    rw [loop1_leaves [m] (1 + 1) rfl (TestItem.mk cid cs).children.reverse [] []
      (by
        intro y hy
        rw [TestItem.children] at hy
        exact hleaf y (List.mem_reverse.mp hy))]
    rw [TestItem.children, List.nil_append]
    congr 1
    refine List.filter_congr ?_
    intro y _
    simp
  constructor
  · rw [createTestLists_eq, q0, l1]
    rfl
  · intro hc
    rw [createTestLists_eq, q0, l1] at hc
    have h1 : TestItem.mk cid cs ∈ cs.reverse.filter (fun x => decide (x ≠ m)) := by
      simpa [loop2] using hc
    have h2 : TestItem.mk cid cs ∈ cs := List.mem_reverse.mp (List.mem_of_mem_filter h1)
    have h3 := hleaf _ h2
    rw [TestItem.children] at h3
    rw [h3] at h2
    cases h2

def aNode : TestItem := TestItem.mk "M/C/a" []

def bNode : TestItem := TestItem.mk "M/C/b" []

def cNode : TestItem := TestItem.mk "M/C" [aNode, bNode]

def mNode : TestItem := TestItem.mk "M" [cNode]

/-- C1 (amended): a test-case node (exactly one ancestor) popped from the
primary work queue is accepted as a single whole pending unit, with its
children re-enqueued into the second queue, if and only if it does not
appear verbatim in `exclude` and the case node's id is not a string-prefix
of any excluded node's id (i.e. no excluded node's id extends the case
node's id). -/
theorem c1_case_acceptance_condition :
    (∀ (exclude : List TestItem) (test : TestItem),
      loop1Step exclude test 1 = Loop1Action.acceptCase ↔
        (test ∉ exclude ∧ ∀ item ∈ exclude, jsStartsWith item.id test.id = false))
    ∧ (∀ (exclude : List TestItem) (test : TestItem) (rest : List (TestItem × Nat))
        (list queue2 : List TestItem),
        loop1Step exclude test 1 = Loop1Action.acceptCase →
        loop1 exclude ((test, 1) :: rest) list queue2
          = loop1 exclude rest (list ++ [test]) (queue2 ++ test.children)) :=
  ⟨loop1Step_acceptCase_iff,
   fun ex t rest l q2 h => loop1_cons_accept ex t 1 rest l q2 h⟩

/-- C1 counterexample: with `exclude = [node "A"]`, the case node with id
`"A/B"` is accepted wholesale by the code even though the excluded node's id
`"A"` is a string-prefix of the case node's id `"A/B"`, so the claimed
acceptance condition (no excluded id is a prefix of the case id) is not
equivalent to the code's condition. -/
theorem c1_prefix_direction_counterexample :
    ¬ (loop1Step [TestItem.mk "A" []] (TestItem.mk "A/B" [TestItem.mk "A/B/c" []]) 1
        = Loop1Action.acceptCase ↔
      ((TestItem.mk "A/B" [TestItem.mk "A/B/c" []]) ∉ [TestItem.mk "A" []] ∧
        ∀ item ∈ [TestItem.mk "A" []],
          jsStartsWith (TestItem.mk "A/B" [TestItem.mk "A/B/c" []]).id item.id = false)) := by
  decide

theorem c1_case_acceptance_condition_witness :
    loop1Step [TestItem.mk "X" []] (TestItem.mk "A/B" [TestItem.mk "A/B/c" []]) 1
      = Loop1Action.acceptCase
    ∧ loop1 [TestItem.mk "X" []] [(TestItem.mk "A/B" [TestItem.mk "A/B/c" []], 1)] [] []
      = loop1 [TestItem.mk "X" []] [] [TestItem.mk "A/B" [TestItem.mk "A/B/c" []]]
          [TestItem.mk "A/B/c" []] :=
  ⟨(c1_case_acceptance_condition.1 _ _).mpr (by decide),
   c1_case_acceptance_condition.2 [TestItem.mk "X" []]
     (TestItem.mk "A/B" [TestItem.mk "A/B/c" []]) [] [] []
     ((c1_case_acceptance_condition.1 _ _).mpr (by decide))⟩

/-- C7 (amended): (1) in a tree where no node is a child of two distinct
forest nodes and no root lies strictly below the excluded case, excluding a
case-level node removes the case and all of its strict descendants from the
plan, provided no include entry lies strictly below the case; (2) any
verbatim-excluded node is absent from the plan; (3) excluding a childless
method of a case (the method's id extending the case's id) keeps exactly
the remaining sibling methods, but the case-level node itself is also absent
from the plan (it is no longer accepted as a single unit). -/
theorem c7_exclusion_propagation :
    (∀ (roots : List TestItem) (includeList : List (TestItem × Nat))
       (exclude : List TestItem) (c : TestItem),
      c ∈ exclude → c ∈ forestNodes roots →
      (∀ p ∈ forestNodes roots, ∀ q ∈ forestNodes roots,
        ∀ x ∈ p.children, x ∈ q.children → p = q) →
      (∀ r ∈ roots, r ∉ strictSubtreeNodes c) →
      (∀ pr ∈ includeList, pr.1 ∈ forestNodes roots ∧ pr.1 ∉ strictSubtreeNodes c) →
      ∀ x ∈ (createTestLists roots includeList exclude).testItems,
        x ≠ c ∧ x ∉ strictSubtreeNodes c)
    ∧ (∀ (roots : List TestItem) (includeList : List (TestItem × Nat))
        (exclude : List TestItem) (m : TestItem),
        m ∈ exclude → m ∉ (createTestLists roots includeList exclude).testItems)
    ∧ (∀ (mid cid : String) (cs : List TestItem) (m : TestItem),
        m ∈ cs → (∀ x ∈ cs, x.children = []) → jsStartsWith m.id cid = true →
        (createTestLists [TestItem.mk mid [TestItem.mk cid cs]] [] [m]).testItems
            = cs.reverse.filter (fun x => decide (x ≠ m))
          ∧ TestItem.mk cid cs ∉
            (createTestLists [TestItem.mk mid [TestItem.mk cid cs]] [] [m]).testItems) :=
  ⟨fun roots incl ex c h1 h2 h3 h4 h5 =>
      createTestLists_case_exclusion roots incl ex c h1 h2 h3 h4 h5,
   fun roots incl ex m hm => createTestLists_excluded_not_mem roots incl ex m hm,
   fun mid cid cs m h1 h2 h3 => createTestLists_method_exclusion mid cid cs m h1 h2 h3⟩

/-- C7 counterexample: in the module `M` with case `M/C` and methods
`M/C/a`, `M/C/b`, excluding only the method `M/C/a` also removes the
case-level node `M/C` from the plan, although `M/C` is in the unfiltered
plan and differs from the excluded method — refuting the claim that
excluding a single method removes only that method. -/
theorem c7_case_node_dropped_counterexample :
    cNode ∈ (createTestLists [mNode] [] []).testItems
    ∧ cNode ∉ (createTestLists [mNode] [] [aNode]).testItems
    ∧ cNode ≠ aNode := by
  have q0 : initialQueue [mNode] [] = [(mNode, 0)] := by
    rw [initialQueue]; simp
  have e0 : loop1 [] [(mNode, 0)] [] [] = ([cNode], [aNode, bNode]) := by
    rw [loop1_cons_expand _ _ _ _ _ _ (by decide)]
    show loop1 [] [(cNode, 1)] [] [] = _
    rw [loop1_cons_accept _ _ _ _ _ _ (by decide), loop1_nil]
    rfl
  have e1 : loop1 [aNode] [(mNode, 0)] [] [] = ([bNode], []) := by
    rw [loop1_cons_expand _ _ _ _ _ _ (by decide)]
    show loop1 [aNode] [(cNode, 1)] [] [] = _
    rw [loop1_cons_expand _ _ _ _ _ _ (by decide)]
    show loop1 [aNode] [(bNode, 2), (aNode, 2)] [] [] = _
    rw [loop1_cons_leaf _ _ _ _ _ _ (by decide)]
    rw [loop1_cons_drop _ _ _ _ _ _ (by decide), loop1_nil]
    rfl
  refine ⟨?_, ?_, by decide⟩
  · rw [createTestLists_eq, q0, e0]
    show cNode ∈ loop2 [] [bNode, aNode] [cNode]
    decide
  · rw [createTestLists_eq, q0, e1]
    show cNode ∉ loop2 [aNode] [] [bNode]
    decide

theorem c7_exclusion_propagation_witness :
    (∀ x ∈ (createTestLists [mNode] [] [cNode]).testItems,
      x ≠ cNode ∧ x ∉ strictSubtreeNodes cNode)
    ∧ aNode ∉ (createTestLists [mNode] [] [aNode]).testItems
    ∧ ((createTestLists [mNode] [] [aNode]).testItems
          = [aNode, bNode].reverse.filter (fun x => decide (x ≠ aNode))
        ∧ TestItem.mk "M/C" [aNode, bNode] ∉
          (createTestLists [mNode] [] [aNode]).testItems) :=
  ⟨c7_exclusion_propagation.1 [mNode] [] [cNode] cNode (by decide) (by decide)
      (by decide) (by decide) (by intro pr hpr; cases hpr),
   c7_exclusion_propagation.2.1 [mNode] [] [aNode] aNode (by decide),
   c7_exclusion_propagation.2.2 "M" "M/C" [aNode, bNode] aNode (by decide) (by decide)
      (by decide)⟩

/-- C8 (amended): if both `include` and `exclude` are empty the filter
arguments are empty; if the request is filtered, the filter arguments are
exactly the ids of the result list as it stands before the second queue is
drained (and that list is an initial segment of the final pending-test
list).  The converse of the emptiness direction fails: a filtered request
can produce empty filter arguments. -/
theorem c8_filter_args :
    (∀ roots : List TestItem, (createTestLists roots [] []).testArgs = [])
    ∧ (∀ (roots : List TestItem) (includeList : List (TestItem × Nat))
        (exclude : List TestItem),
        includeList ≠ [] ∨ exclude ≠ [] →
        (createTestLists roots includeList exclude).testArgs
          = (preDrainList roots includeList exclude).map TestItem.id
        ∧ ∃ tail, (createTestLists roots includeList exclude).testItems
            = preDrainList roots includeList exclude ++ tail) := by
  constructor
  · intro roots
    rw [createTestLists_eq]
    simp
  · intro roots includeList exclude h
    constructor
    · rw [createTestLists_eq]
      show (if includeList ≠ [] ∨ exclude ≠ [] then
        (loop1 exclude (initialQueue roots includeList) [] []).1.map TestItem.id else [])
          = _
      rw [if_pos h]
      rfl
    · refine ⟨loop2 exclude
        (loop1 exclude (initialQueue roots includeList) [] []).2.reverse [], ?_⟩
      rw [createTestLists_eq]
      show loop2 exclude (loop1 exclude (initialQueue roots includeList) [] []).2.reverse
        (loop1 exclude (initialQueue roots includeList) [] []).1 = _
      rw [loop2_acc]
      rfl

/-- C8 counterexample: including and excluding the same sole leaf gives a
filtered request whose filter-argument list is nevertheless empty, so
"filterArgs is empty iff both include and exclude are empty" fails. -/
theorem c8_empty_args_counterexample :
    (createTestLists [TestItem.mk "x" []] [(TestItem.mk "x" [], 0)]
        [TestItem.mk "x" []]).testArgs = []
    ∧ ¬ (([(TestItem.mk "x" [], 0)] : List (TestItem × Nat)) = []
        ∧ ([TestItem.mk "x" []] : List TestItem) = []) := by
  constructor
  · have q0 : initialQueue [TestItem.mk "x" []] [(TestItem.mk "x" [], 0)]
        = [(TestItem.mk "x" [], 0)] := by
      rw [initialQueue]; simp
    have e0 : loop1 [TestItem.mk "x" []] [(TestItem.mk "x" [], 0)] [] [] = ([], []) := by
      rw [loop1_cons_drop _ _ _ _ _ _ (by decide), loop1_nil]
    rw [createTestLists_eq]
    show (if ([(TestItem.mk "x" [], 0)] : List (TestItem × Nat)) ≠ []
        ∨ ([TestItem.mk "x" []] : List TestItem) ≠ [] then
      (loop1 [TestItem.mk "x" []]
        (initialQueue [TestItem.mk "x" []] [(TestItem.mk "x" [], 0)]) [] []).1.map TestItem.id
      else []) = []
    rw [if_pos (by simp), q0, e0]
    rfl
  · decide

theorem c8_filter_args_witness :
    (createTestLists [mNode] [] [aNode]).testArgs
      = (preDrainList [mNode] [] [aNode]).map TestItem.id
    ∧ ∃ tail, (createTestLists [mNode] [] [aNode]).testItems
        = preDrainList [mNode] [] [aNode] ++ tail :=
  c8_filter_args.2 [mNode] [] [aNode] (by simp)

/-- The single-quote character, used in the test-output patterns. -/
def squote : String := String.mk [Char.ofNat 39]

/-- JavaScript regex `.`: any character except a line terminator. -/
def jsDot (c : Char) : Bool :=
  !(c = Char.ofNat 10 || c = Char.ofNat 13 || c = Char.ofNat 0x2028 || c = Char.ofNat 0x2029)

/-- JavaScript regex `\d`: an ASCII digit. -/
def jsDigit (c : Char) : Bool :=
  Char.ofNat 48 ≤ c && c ≤ Char.ofNat 57

/-- JavaScript regex `\s`: whitespace (the common code points). -/
def jsSpaceChar (c : Char) : Bool :=
  c = Char.ofNat 32 || c = Char.ofNat 9 || c = Char.ofNat 10 || c = Char.ofNat 13 ||
  c = Char.ofNat 11 || c = Char.ofNat 12 || c = Char.ofNat 0xa0 || c = Char.ofNat 0xfeff ||
  c = Char.ofNat 0x2028 || c = Char.ofNat 0x2029

/-- JavaScript regex `\S`. -/
def jsNonSpace (c : Char) : Bool := !jsSpaceChar c

/-- An atom inside a capture group: a single character of a class, or a
greedy star / plus over a class.  The groups appearing in the source's
patterns are exactly `(\S+)`, `(.*)`, `(.+)`, `(\d+)` and `(\d.*)`. -/
inductive GAtom where
  | one : (Char → Bool) → GAtom
  | star : (Char → Bool) → GAtom
  | plus : (Char → Bool) → GAtom

/-- An element of a regular-expression pattern: a literal character, an
uncaptured single-class character (`\s`), an uncaptured greedy star
(`\s*`), a capture group made of atoms, or the end anchor `$`. -/
inductive RItem where
  | lit : Char → RItem
  | cls : (Char → Bool) → RItem
  | star : (Char → Bool) → RItem
  | grp : List GAtom → RItem
  | eos : RItem

/-- Match a single character of class `p`, then continue. -/
def matchOne {α : Type} (p : Char → Bool) (s : List Char) (k : List Char → Option α) :
    Option α :=
  match s with
  | [] => none
  | a :: s1 => if p a then k s1 else none

/-- Greedy star with backtracking: consume as many `p`-characters as
possible, retrying the continuation on shorter consumptions when the longer
ones fail — the exact JavaScript greedy-quantifier behaviour. -/
def matchStar {α : Type} (p : Char → Bool) (s : List Char) (k : List Char → Option α) :
    Option α :=
  match s with
  | [] => k []
  | a :: s1 =>
    if p a then
      match matchStar p s1 k with
      | some r => some r
      | none => k (a :: s1)
    else k (a :: s1)

def matchAtom {α : Type} (g : GAtom) (s : List Char) (k : List Char → Option α) :
    Option α :=
  match g with
  | GAtom.one p => matchOne p s k
  | GAtom.star p => matchStar p s k
  | GAtom.plus p => matchOne p s (fun s1 => matchStar p s1 k)

def matchAtoms {α : Type} (gs : List GAtom) (s : List Char) (k : List Char → Option α) :
    Option α :=
  match gs with
  | [] => k s
  | g :: grest => matchAtom g s (fun s1 => matchAtoms grest s1 k)

/-- Run a `^`-anchored pattern against the input, collecting the capture
groups (in order).  A pattern without a final `RItem.eos` may leave a
suffix of the input unconsumed, like a JavaScript regex without `$`. -/
def runRItems : List RItem → List Char → List (List Char) → Option (List (List Char))
  | [], _, acc => some acc.reverse
  | RItem.lit c :: rest, s, acc =>
    match s with
    | [] => none
    | a :: s1 => if a = c then runRItems rest s1 acc else none
  | RItem.cls p :: rest, s, acc => matchOne p s (fun s1 => runRItems rest s1 acc)
  | RItem.star p :: rest, s, acc => matchStar p s (fun s1 => runRItems rest s1 acc)
  | RItem.grp atoms :: rest, s, acc =>
    matchAtoms atoms s
      (fun s1 => runRItems rest s1 (s.take (s.length - s1.length) :: acc))
  | RItem.eos :: rest, s, acc =>
    match s with
    | [] => runRItems rest [] acc
    | _ :: _ => none

/-- Literal fragment of a pattern. -/
def lits (s : String) : List RItem := s.data.map RItem.lit

/-- Darwin "started" pattern, source line 421:
`/^Test Case '-\[(\S+)\s(.*)\]' started./` -/
def aStartedPattern : List RItem :=
  lits ("Test Case " ++ squote ++ "-[") ++
  [RItem.grp [GAtom.plus jsNonSpace], RItem.cls jsSpaceChar, RItem.grp [GAtom.star jsDot]] ++
  lits ("]" ++ squote ++ " started") ++ [RItem.cls jsDot]

/-- Darwin "passed" pattern, source line 432:
`/^Test Case '-\[(\S+)\s(.*)\]' passed \((\d.*) seconds\)/` -/
def aPassedPattern : List RItem :=
  lits ("Test Case " ++ squote ++ "-[") ++
  [RItem.grp [GAtom.plus jsNonSpace], RItem.cls jsSpaceChar, RItem.grp [GAtom.star jsDot]] ++
  lits ("]" ++ squote ++ " passed (") ++
  [RItem.grp [GAtom.one jsDigit, GAtom.star jsDot]] ++ lits " seconds)"

/-- Darwin "failed" pattern, source line 447:
`/^(.+):(\d+):\serror:\s-\[(\S+)\s(.*)\] : (.*)$/` -/
def aFailedPattern : List RItem :=
  [RItem.grp [GAtom.plus jsDot]] ++ lits ":" ++ [RItem.grp [GAtom.plus jsDigit]] ++
  lits ":" ++ [RItem.cls jsSpaceChar] ++ lits "error:" ++ [RItem.cls jsSpaceChar] ++
  lits "-[" ++
  [RItem.grp [GAtom.plus jsNonSpace], RItem.cls jsSpaceChar, RItem.grp [GAtom.star jsDot]] ++
  lits "] : " ++ [RItem.grp [GAtom.star jsDot]] ++ [RItem.eos]

/-- Darwin "skipped" pattern, source line 464:
`/^(.+):(\d+):\s-\[(\S+)\s(.*)\] : Test skipped/` -/
def aSkippedPattern : List RItem :=
  [RItem.grp [GAtom.plus jsDot]] ++ lits ":" ++ [RItem.grp [GAtom.plus jsDigit]] ++
  lits ":" ++ [RItem.cls jsSpaceChar] ++ lits "-[" ++
  [RItem.grp [GAtom.plus jsNonSpace], RItem.cls jsSpaceChar, RItem.grp [GAtom.star jsDot]] ++
  lits "] : Test skipped"

/-- Non-Darwin "started" pattern, source line 495:
`/^Test Case '(.*)\.(.*)' started/` -/
def bStartedPattern : List RItem :=
  lits ("Test Case " ++ squote) ++ [RItem.grp [GAtom.star jsDot]] ++ lits "." ++
  [RItem.grp [GAtom.star jsDot]] ++ lits (squote ++ " started")

/-- Non-Darwin "failed" pattern, source line 508:
`/^(.+):(\d+):\serror:\s*(.*)\.(.*) : (.*)/` -/
def bFailedPattern : List RItem :=
  [RItem.grp [GAtom.plus jsDot]] ++ lits ":" ++ [RItem.grp [GAtom.plus jsDigit]] ++
  lits ":" ++ [RItem.cls jsSpaceChar] ++ lits "error:" ++ [RItem.star jsSpaceChar] ++
  [RItem.grp [GAtom.star jsDot]] ++ lits "." ++ [RItem.grp [GAtom.star jsDot]] ++
  lits " : " ++ [RItem.grp [GAtom.star jsDot]]

/-- Non-Darwin "skipped" pattern, source line 532:
`/^(.+):(\d+):\s*(.*)\.(.*) : Test skipped:/` -/
def bSkippedPattern : List RItem :=
  [RItem.grp [GAtom.plus jsDot]] ++ lits ":" ++ [RItem.grp [GAtom.plus jsDigit]] ++
  lits ":" ++ [RItem.star jsSpaceChar] ++
  [RItem.grp [GAtom.star jsDot]] ++ lits "." ++ [RItem.grp [GAtom.star jsDot]] ++
  lits " : Test skipped:"

/-- Non-Darwin "passed" pattern, source line 553:
`/^Test Case '(.*)\.(.*)' passed \((\d.*) seconds\)/` -/
def bPassedPattern : List RItem :=
  lits ("Test Case " ++ squote) ++ [RItem.grp [GAtom.star jsDot]] ++ lits "." ++
  [RItem.grp [GAtom.star jsDot]] ++ lits (squote ++ " passed (") ++
  [RItem.grp [GAtom.one jsDigit, GAtom.star jsDot]] ++ lits " seconds)"

def aStartedMatch (line : String) : Option (String × String) :=
  match runRItems aStartedPattern line.data [] with
  | some [g1, g2] => some (String.mk g1, String.mk g2)
  | _ => none

def aPassedMatch (line : String) : Option (String × String × String) :=
  match runRItems aPassedPattern line.data [] with
  | some [g1, g2, g3] => some (String.mk g1, String.mk g2, String.mk g3)
  | _ => none

def aFailedMatch (line : String) : Option (String × String × String × String × String) :=
  match runRItems aFailedPattern line.data [] with
  | some [g1, g2, g3, g4, g5] =>
      some (String.mk g1, String.mk g2, String.mk g3, String.mk g4, String.mk g5)
  | _ => none

def aSkippedMatch (line : String) : Option (String × String × String × String) :=
  match runRItems aSkippedPattern line.data [] with
  | some [g1, g2, g3, g4] => some (String.mk g1, String.mk g2, String.mk g3, String.mk g4)
  | _ => none

def bStartedMatch (line : String) : Option (String × String) :=
  match runRItems bStartedPattern line.data [] with
  | some [g1, g2] => some (String.mk g1, String.mk g2)
  | _ => none

def bFailedMatch (line : String) : Option (String × String × String × String × String) :=
  match runRItems bFailedPattern line.data [] with
  | some [g1, g2, g3, g4, g5] =>
      some (String.mk g1, String.mk g2, String.mk g3, String.mk g4, String.mk g5)
  | _ => none

def bSkippedMatch (line : String) : Option (String × String × String × String) :=
  match runRItems bSkippedPattern line.data [] with
  | some [g1, g2, g3, g4] => some (String.mk g1, String.mk g2, String.mk g3, String.mk g4)
  | _ => none

def bPassedMatch (line : String) : Option (String × String × String) :=
  match runRItems bPassedPattern line.data [] with
  | some [g1, g2, g3] => some (String.mk g1, String.mk g2, String.mk g3)
  | _ => none

/-- Split a character list at every occurrence of `sep` (JavaScript
`String.prototype.split` with a single-character separator). -/
def splitCharAux (sep : Char) : List Char → List Char → List String
  | [], acc => [String.mk acc.reverse]
  | c :: rest, acc =>
    if c = sep then String.mk acc.reverse :: splitCharAux sep rest []
    else splitCharAux sep rest (c :: acc)

def splitChar (sep : Char) (s : String) : List String :=
  splitCharAux sep s.data []

/-- JavaScript `output.split("\n")`. -/
def splitOnNewline (s : String) : List String :=
  splitChar (Char.ofNat 10) s

/-- JavaScript `String.prototype.trim`. -/
def jsTrim (s : String) : String :=
  String.mk (((s.data.dropWhile jsSpaceChar).reverse.dropWhile jsSpaceChar).reverse)

/-- JavaScript `parseInt` on a string of decimal digits (the `(\d+)` capture). -/
def parseIntNat (s : String) : Nat :=
  s.data.foldl (fun n c => n * 10 + (c.toNat - 48)) 0

/-- JavaScript unary `+` on a captured duration string, modelled exactly:
a plain decimal numeral `digits` or `digits.digits` maps to its rational
value, anything else to `none` (standing for NaN). -/
def jsToNumber (s : String) : Option ℚ :=
  let intPart := s.data.takeWhile jsDigit
  let rest := s.data.dropWhile jsDigit
  if intPart.isEmpty then none
  else
    match rest with
    | [] => some (parseIntNat (String.mk intPart) : ℚ)
    | c :: frac =>
      if c = Char.ofNat 46 && frac.all jsDigit then
        some ((parseIntNat (String.mk intPart) : ℚ)
          + (parseIntNat (String.mk frac) : ℚ) / ((10 : ℚ) ^ frac.length))
      else none

/-- A pending test as the parsers see it: its id, and the label of its
grandparent tree node (`item.parent?.parent?.label`, `none` when the item
has fewer than two ancestors), which the non-Darwin parser uses for target
disambiguation. -/
structure RunItem where
  id : String
  targetLabel : Option String
deriving DecidableEq, Repr

/-- One call on the reporting sink (`vscode.TestRun`), in the order the
runner makes them.  `ended` is `testRun.end()`, `errored` is
`testRun.errored(item, message)`, `failed` carries the message and the
source location passed to `vscode.Location`/`vscode.Position` (row may be
`-1` on Darwin because the code subtracts one from the printed line). -/
inductive SinkCall where
  | enqueued (item : RunItem)
  | started (item : RunItem)
  | passed (item : RunItem) (duration : Option ℚ)
  | failed (item : RunItem) (message : String) (file : String) (row : Int) (col : Nat)
  | skipped (item : RunItem)
  | errored (item : RunItem) (message : String)
  | appendOutput (text : String)
  | ended
deriving DecidableEq

/-- The parser's mutable state: the shrinking pending-test list
`this.testItems` and the cursor `this.currentTestItem`. -/
structure ParseState where
  testItems : List RunItem
  currentTestItem : Option RunItem
deriving DecidableEq, Repr

/-- `findIndex` followed by reading the element and `splice(index, 1)`:
the first item satisfying the predicate together with the list with that
occurrence removed. -/
def findRemove (p : RunItem → Bool) : List RunItem → Option (RunItem × List RunItem)
  | [] => none
  | x :: xs =>
    if p x then some (x, xs)
    else
      match findRemove p xs with
      | some (y, rest) => some (y, x :: rest)
      | none => none

/-- A target from the package manifest (`folderContext.swiftPackage.targets`). -/
structure Target where
  name : String
  path : String
  sources : List String
deriving DecidableEq, Repr

/-- The folder data `isTestWithFilenameInTarget` consults:
`folderContext.folder.fsPath` and the package targets. -/
structure FolderCtx where
  folderPath : String
  targets : List Target
deriving DecidableEq, Repr

/-- Model of Node `path.join(a, b)` for the normalized segment paths used
here: concatenation with a single separator. -/
def pathJoin (a b : String) : String := a ++ "/" ++ b

def dropCommonSegments : List String → List String → List String × List String
  | a :: as, b :: bs => if a = b then dropCommonSegments as bs else (a :: as, b :: bs)
  | as, bs => (as, bs)

def joinSegments : List String → String
  | [] => ""
  | [s] => s
  | s :: rest => s ++ "/" ++ joinSegments rest

/-- Model of Node `path.relative(p, q)` for absolute, already-normalized
slash-separated paths: strip the common leading segments, then climb out of
what remains of `p` with `..` segments and descend into the remainder of
`q`. -/
def pathRelative (p q : String) : String :=
  let ps := (splitChar (Char.ofNat 47) p).filter (fun x => !(x == ""))
  let qs := (splitChar (Char.ofNat 47) q).filter (fun x => !(x == ""))
  let r := dropCommonSegments ps qs
  joinSegments (r.1.map (fun _ => "..") ++ r.2)

/-- `TestRunner.isTestWithFilenameInTarget` (source lines 581-605): the item
matches the class/function suffix, its grandparent tree node names a package
target, and the failure's file path, made relative to that target's path,
is one of the target's sources. -/
def isTestWithFilenameInTarget (ctx : FolderCtx) (testName filename : String)
    (item : RunItem) : Bool :=
  if !(jsEndsWith item.id testName) then false
  else
    match item.targetLabel with
    | none => false
    | some label =>
      match ctx.targets.find? (fun t => label == t.name) with
      | some target =>
        let targetPath := pathJoin ctx.folderPath target.path
        let relativePath := pathRelative targetPath filename
        target.sources.any (fun src => src == relativePath)
      | none => false

/-- One line of `TestRunner.parseResultDarwin` (source lines 419-475):
started, passed, failed and skipped patterns tried in order; the first match
wins and the rest of the line handling is skipped (`continue`). -/
def parseLineDarwin (st : ParseState) (line : String) : ParseState × List SinkCall :=
  match aStartedMatch line with
  | some (tgt, cf) =>
    let testId := tgt ++ "/" ++ cf
    match st.testItems.find? (fun item => item.id == testId) with
    | some item => ({ st with currentTestItem := some item }, [SinkCall.started item])
    | none => (st, [])
  | none =>
    match aPassedMatch line with
    | some (tgt, cf, dur) =>
      let testId := tgt ++ "/" ++ cf
      match findRemove (fun item => item.id == testId) st.testItems with
      | some (item, rest) =>
        ({ testItems := rest, currentTestItem := none },
         [SinkCall.passed item ((jsToNumber dur).map (fun d => d * 1000))])
      | none => ({ st with currentTestItem := none }, [])
    | none =>
      match aFailedMatch line with
      | some (file, num, tgt, cf, msg) =>
        let testId := tgt ++ "/" ++ cf
        match findRemove (fun item => item.id == testId) st.testItems with
        | some (item, rest) =>
          ({ testItems := rest, currentTestItem := none },
           [SinkCall.failed item msg file ((parseIntNat num : Int) - 1) 0])
        | none => ({ st with currentTestItem := none }, [])
      | none =>
        match aSkippedMatch line with
        | some (_, _, tgt, cf) =>
          let testId := tgt ++ "/" ++ cf
          match findRemove (fun item => item.id == testId) st.testItems with
          | some (item, rest) =>
            ({ testItems := rest, currentTestItem := none }, [SinkCall.skipped item])
          | none => ({ st with currentTestItem := none }, [])
        | none => (st, [])

/-- The failed/skipped lookup of `parseResultNonDarwin`: first try the
target-disambiguated search, then fall back to a plain suffix search
(source lines 511-517 and 535-540). -/
def lookupWithTargetFallback (ctx : FolderCtx) (testName filename : String)
    (items : List RunItem) : Option (RunItem × List RunItem) :=
  match findRemove (fun item => isTestWithFilenameInTarget ctx testName filename item) items with
  | some r => some r
  | none => findRemove (fun item => jsEndsWith item.id testName) items

/-- One line of the first pass of `TestRunner.parseResultNonDarwin`
(source lines 493-549): started, failed and skipped patterns. -/
def pass1Line (ctx : FolderCtx) (st : ParseState) (line : String) :
    ParseState × List SinkCall :=
  match bStartedMatch line with
  | some (cls, meth) =>
    let testName := cls ++ "/" ++ meth
    match st.testItems.find? (fun item => jsEndsWith item.id testName) with
    | some item => ({ st with currentTestItem := some item }, [SinkCall.started item])
    | none => (st, [])
  | none =>
    match bFailedMatch line with
    | some (file, num, cls, meth, msg) =>
      let testName := cls ++ "/" ++ meth
      match lookupWithTargetFallback ctx testName file st.testItems with
      | some (item, rest) =>
        ({ testItems := rest, currentTestItem := none },
         [SinkCall.failed item msg file (parseIntNat num : Int) 0])
      | none => ({ st with currentTestItem := none }, [])
    | none =>
      match bSkippedMatch line with
      | some (file, _, cls, meth) =>
        let testName := cls ++ "/" ++ meth
        match lookupWithTargetFallback ctx testName file st.testItems with
        | some (item, rest) =>
          ({ testItems := rest, currentTestItem := none }, [SinkCall.skipped item])
        | none => ({ st with currentTestItem := none }, [])
      | none => (st, [])

/-- One line of the second pass of `TestRunner.parseResultNonDarwin`
(source lines 551-568): the passed pattern only; note the duration is
passed through without the seconds-to-milliseconds conversion the Darwin
parser performs. -/
def pass2Line (st : ParseState) (line : String) : ParseState × List SinkCall :=
  match bPassedMatch line with
  | some (cls, meth, dur) =>
    let testName := cls ++ "/" ++ meth
    match findRemove (fun item => jsEndsWith item.id testName) st.testItems with
    | some (item, rest) =>
      ({ testItems := rest, currentTestItem := none },
       [SinkCall.passed item (jsToNumber dur)])
    | none => ({ st with currentTestItem := none }, [])
  | none => (st, [])

/-- Fold a per-line step over a list of lines, concatenating the emitted
sink calls in order. -/
def processLines (step : ParseState → String → ParseState × List SinkCall) :
    ParseState → List String → ParseState × List SinkCall
  | st, [] => (st, [])
  | st, l :: ls =>
    let r1 := step st l
    let r2 := processLines step r1.1 ls
    (r2.1, r1.2 ++ r2.2)

/-- `TestRunner.parseResultDarwin` (source lines 416-476). -/
def parseResultDarwin (st : ParseState) (output : String) : ParseState × List SinkCall :=
  let lines := (splitOnNewline output).map jsTrim
  processLines parseLineDarwin st lines

/-- `TestRunner.parseResultNonDarwin` (source lines 483-569): one pass for
started/failed/skipped over all lines, then a second pass for passed lines
over the same lines against the shrunk pending list. -/
def parseResultNonDarwin (ctx : FolderCtx) (st : ParseState) (output : String) :
    ParseState × List SinkCall :=
  let lines := (splitOnNewline output).map jsTrim
  let r1 := processLines (pass1Line ctx) st lines
  let r2 := processLines pass2Line r1.1 lines
  (r2.1, r1.2 ++ r2.2)

/-- A JavaScript exception as `runHandler`'s catch block inspects it:
`innerMessage` is `(error as ExecError).error?.message` (`none` when the
thrown value has no nested `error`), `description` is
`getErrorDescription(error)`. -/
structure JsError where
  innerMessage : Option String
  description : String
deriving DecidableEq, Repr

/-- The classification on source lines 187-192:
`execError && execError.error && execError.error.message.startsWith("Command failed")`. -/
def JsError.isCommandFailed (e : JsError) : Bool :=
  match e.innerMessage with
  | some m => jsStartsWith m "Command failed"
  | none => false

/-- The catch block of `runHandler` (source lines 184-202) followed by the
trailing `this.testRun.end()` (line 204): a classified command failure ends
the run silently; otherwise the current item, if set, is errored with the
error description, the description is appended to the output, and the run
ends. -/
def handleCatch (e : JsError) (current : Option RunItem) : List SinkCall :=
  if e.isCommandFailed then [SinkCall.ended]
  else
    (match current with
     | some item => [SinkCall.errored item e.description]
     | none => []) ++
    [SinkCall.appendOutput ("\r\nError: " ++ e.description), SinkCall.ended]

/-- `TestRunner.runHandler` (source lines 162-205), as the trace of its own
sink calls.  The build step and the run/debug session are opaque awaited
collaborators: `buildResult` is the outcome of
`taskQueue.queueOperation` (`Except.error` when that step throws,
otherwise the exit code, `none` standing for `undefined`), `sessionResult`
is the outcome of `runSession`/`debugSession`, and `currentAtCatch` is the
value of `this.currentTestItem` when an exception reaches the catch block.
Neither session function calls `testRun.end()` itself, so the trace below
contains every `end()` of a run. -/
def runHandler (testItems : List RunItem) (buildResult : Except JsError (Option Int))
    (sessionResult : Except JsError Unit) (currentAtCatch : Option RunItem) :
    List SinkCall :=
  match buildResult with
  | Except.error e => handleCatch e currentAtCatch
  | Except.ok exitCode =>
    match exitCode with
    | none => [SinkCall.ended]
    | some code =>
      if code ≠ 0 then [SinkCall.ended]
      else
        (testItems.map SinkCall.enqueued) ++
        match sessionResult with
        | Except.ok _ => [SinkCall.ended]
        | Except.error e => handleCatch e currentAtCatch

/-- Is this sink call a terminal outcome (passed, failed or skipped) for the
given item? -/
def isTerminalFor (item : RunItem) : SinkCall → Bool
  | SinkCall.passed i _ => i == item
  | SinkCall.failed i _ _ _ _ => i == item
  | SinkCall.skipped i => i == item
  | _ => false

def isFailedFor (item : RunItem) : SinkCall → Bool
  | SinkCall.failed i _ _ _ _ => i == item
  | _ => false

def isPassedFor (item : RunItem) : SinkCall → Bool
  | SinkCall.passed i _ => i == item
  | _ => false

theorem isFailedFor_terminal (item : RunItem) (e : SinkCall)
    (h : isFailedFor item e = true) : isTerminalFor item e = true := by
  cases e <;> simp_all [isFailedFor, isTerminalFor]

theorem isPassedFor_terminal (item : RunItem) (e : SinkCall)
    (h : isPassedFor item e = true) : isTerminalFor item e = true := by
  cases e <;> simp_all [isPassedFor, isTerminalFor]

theorem not_failed_and_passed (item : RunItem) (e : SinkCall) :
    ¬ (isFailedFor item e = true ∧ isPassedFor item e = true) := by
  cases e <;> simp [isFailedFor, isPassedFor]

/-- Removing the element found by `findRemove` accounts for exactly one
occurrence in the count of any item. -/
theorem findRemove_count (p : RunItem → Bool) (item : RunItem) :
    ∀ (l : List RunItem) (x : RunItem) (rest : List RunItem),
      findRemove p l = some (x, rest) →
      l.count item = rest.count item + (if x == item then 1 else 0) := by
  intro l
  induction l with
  | nil => intro x rest h; cases h
  | cons y ys ih =>
      intro x rest h
      rw [findRemove] at h
      split at h
      · injection h with h1
        injection h1 with hx hrest
        rw [← hx, ← hrest]
        rw [List.count_cons]
      · cases h2 : findRemove p ys with
        | none => rw [h2] at h; cases h
        | some r =>
            cases r with
            | mk z zr =>
                rw [h2] at h
                injection h with h1
                injection h1 with hx hrest
                rw [← hx, ← hrest]
                rw [List.count_cons, List.count_cons, ih z zr h2]
                omega

theorem lookupWithTargetFallback_count (ctx : FolderCtx) (tn fn : String)
    (items : List RunItem) (item x : RunItem) (rest : List RunItem)
    (h : lookupWithTargetFallback ctx tn fn items = some (x, rest)) :
    items.count item = rest.count item + (if x == item then 1 else 0) := by
  rw [lookupWithTargetFallback] at h
  cases h1 : findRemove (fun it => isTestWithFilenameInTarget ctx tn fn it) items with
  | some r =>
      rw [h1] at h
      injection h with h2
      rw [h2] at h1
      exact findRemove_count _ item items x rest h1
  | none =>
      rw [h1] at h
      exact findRemove_count _ item items x rest h


theorem pass1Line_count (ctx : FolderCtx) (item : RunItem) (st : ParseState) (line : String) :
    (pass1Line ctx st line).1.testItems.count item
      + ((pass1Line ctx st line).2.countP (isTerminalFor item))
      = st.testItems.count item := by
  rw [pass1Line]
  split
  · dsimp only
    split
    · simp [isTerminalFor]
    · simp
  · split
    next x file num cls meth msg heq2 =>
      dsimp only
      split
      next it rest h3 =>
        have := lookupWithTargetFallback_count ctx (cls ++ "/" ++ meth) file
          st.testItems item it rest h3
        simp only [List.countP_cons, List.countP_nil, isTerminalFor]
        omega
      next => simp
    next x heq2 =>
      split
      next y file num cls meth heq3 =>
        dsimp only
        split
        next it rest h4 =>
          have := lookupWithTargetFallback_count ctx (cls ++ "/" ++ meth) file
            st.testItems item it rest h4
          simp only [List.countP_cons, List.countP_nil, isTerminalFor]
          omega
        next => simp
      next => simp

theorem pass2Line_count (item : RunItem) (st : ParseState) (line : String) :
    (pass2Line st line).1.testItems.count item
      + ((pass2Line st line).2.countP (isTerminalFor item))
      = st.testItems.count item := by
  rw [pass2Line]
  split
  next x cls meth dur heq =>
    dsimp only
    split
    next it rest h2 =>
      have := findRemove_count (fun it => jsEndsWith it.id (cls ++ "/" ++ meth))
        item st.testItems it rest h2
      simp only [List.countP_cons, List.countP_nil, isTerminalFor]
      omega
    next => simp
  next => simp

theorem processLines_count (step : ParseState → String → ParseState × List SinkCall)
    (item : RunItem)
    (hstep : ∀ st line, (step st line).1.testItems.count item
      + ((step st line).2.countP (isTerminalFor item)) = st.testItems.count item) :
    ∀ (lines : List String) (st : ParseState),
      (processLines step st lines).1.testItems.count item
        + ((processLines step st lines).2.countP (isTerminalFor item))
        = st.testItems.count item := by
  intro lines
  induction lines with
  | nil => intro st; simp [processLines]
  | cons l ls ih =>
      intro st
      rw [processLines]
      simp only [List.countP_append]
      have h1 := hstep st l
      have h2 := ih (step st l).1
      omega

/-- Across a whole non-Darwin parse, the number of terminal events emitted
for an item plus its remaining occurrences in the pending list equals its
initial number of occurrences: terminal outcomes consume pending entries. -/
theorem parseResultNonDarwin_count (ctx : FolderCtx) (item : RunItem)
    (st : ParseState) (output : String) :
    (parseResultNonDarwin ctx st output).1.testItems.count item
      + ((parseResultNonDarwin ctx st output).2.countP (isTerminalFor item))
      = st.testItems.count item := by
  rw [parseResultNonDarwin]
  simp only [List.countP_append]
  have h1 := processLines_count (pass1Line ctx) item (pass1Line_count ctx item)
    ((splitOnNewline output).map jsTrim) st
  have h2 := processLines_count pass2Line item (pass2Line_count item)
    ((splitOnNewline output).map jsTrim)
    (processLines (pass1Line ctx) st ((splitOnNewline output).map jsTrim)).1
  omega

theorem countP_two_of_mem {α : Type} (p : α → Bool) (l : List α) (a b : α)
    (ha : a ∈ l) (hb : b ∈ l) (hne : a ≠ b) (hpa : p a = true) (hpb : p b = true) :
    2 ≤ l.countP p := by
  induction l with
  | nil => cases ha
  | cons y ys ih =>
      rcases List.mem_cons.mp ha with rfl | ha1
      · have hb' : b ∈ ys := by
          rcases List.mem_cons.mp hb with h | h
          · exact absurd h.symm hne
          · exact h
        rw [List.countP_cons, hpa, if_pos rfl]
        have h1 : 0 < ys.countP p := List.countP_pos_iff.mpr ⟨b, hb', hpb⟩
        omega
      · rcases List.mem_cons.mp hb with rfl | hb1
        · rw [List.countP_cons, hpb, if_pos rfl]
          have h1 : 0 < ys.countP p := List.countP_pos_iff.mpr ⟨a, ha1, hpa⟩
          omega
        · rw [List.countP_cons]
          have := ih ha1 hb1
          omega

/-- C3: in Grammar B the first pass handles failures and skips and removes
the matched entries from the pending list before the second pass scans for
passed lines, so a test pending at most once that receives a failed event in
a consumed chunk never also receives a passed event in that chunk. -/
theorem c3_pass_after_fail (ctx : FolderCtx) (st : ParseState) (output : String)
    (item : RunItem) (hcount : st.testItems.count item ≤ 1)
    (hfail : ∃ e ∈ (parseResultNonDarwin ctx st output).2, isFailedFor item e = true) :
    ∀ e ∈ (parseResultNonDarwin ctx st output).2, isPassedFor item e = false := by
  intro e2 he2
  by_contra hpass
  rw [Bool.not_eq_false] at hpass
  obtain ⟨e1, he1, hf1⟩ := hfail
  have hne : e1 ≠ e2 := by
    intro he
    rw [he] at hf1
    exact not_failed_and_passed item e2 ⟨hf1, hpass⟩
  have h2 := countP_two_of_mem (isTerminalFor item) (parseResultNonDarwin ctx st output).2
    e1 e2 he1 he2 hne (isFailedFor_terminal item e1 hf1) (isPassedFor_terminal item e2 hpass)
  have h3 := parseResultNonDarwin_count ctx item st output
  omega

def sampleItemT : RunItem := { id := "T/Foo/bar", targetLabel := none }

def sampleStateT : ParseState := { testItems := [sampleItemT], currentTestItem := none }

def emptyCtx : FolderCtx := { folderPath := "/x", targets := [] }

/-- A chunk holding a failure line and a later passed-summary line for the
same `Foo.bar`. -/
def sampleChunk : String :=
  "/r/T.swift:3: error: Foo.bar : x" ++ String.mk [Char.ofNat 10] ++
  "Test Case " ++ squote ++ "Foo.bar" ++ squote ++ " passed (1.0 seconds)"

theorem c3_pass_after_fail_witness :
    sampleStateT.testItems.count sampleItemT ≤ 1
    ∧ (∃ e ∈ (parseResultNonDarwin emptyCtx sampleStateT sampleChunk).2,
        isFailedFor sampleItemT e = true)
    ∧ ∀ e ∈ (parseResultNonDarwin emptyCtx sampleStateT sampleChunk).2,
        isPassedFor sampleItemT e = false :=
  ⟨by decide, by decide,
   c3_pass_after_fail emptyCtx sampleStateT sampleChunk sampleItemT (by decide) (by decide)⟩

/-- C2 (amended): a Grammar B passed line whose class/method suffix matches
a test still in the pending set emits a passed event whose duration argument
is the printed seconds value itself — the non-Darwin parser performs no
seconds-to-milliseconds conversion — removes the matched entry and clears
CurrentItem. -/
theorem c2_grammarB_passed_event (st : ParseState) (line cls meth dur : String)
    (item : RunItem) (rest : List RunItem)
    (hm : bPassedMatch line = some (cls, meth, dur))
    (hf : findRemove (fun it => jsEndsWith it.id (cls ++ "/" ++ meth)) st.testItems
      = some (item, rest)) :
    pass2Line st line = ({ testItems := rest, currentTestItem := none },
      [SinkCall.passed item (jsToNumber dur)]) := by
  rw [pass2Line, hm]
  dsimp only
  rw [hf]

def samplePassedLine : String :=
  "Test Case " ++ squote ++ "Foo.bar" ++ squote ++ " passed (2.0 seconds)"

/-- C2 counterexample: for the line `Test Case 'Foo.bar' passed (2.0
seconds)` and pending id `T/Foo/bar`, the emitted passed event carries the
duration `2` — the raw seconds value — and not the `2 * 1000` milliseconds
the claim states, so the claimed conversion does not happen. -/
theorem c2_duration_counterexample :
    pass2Line sampleStateT samplePassedLine
      = ({ testItems := [], currentTestItem := none },
         [SinkCall.passed sampleItemT (jsToNumber "2.0")])
    ∧ jsToNumber "2.0" = some 2
    ∧ some (2 : ℚ) ≠ some (2 * 1000 : ℚ) := by
  refine ⟨?_, ?_, by norm_num⟩
  · rw [pass2Line,
      show bPassedMatch samplePassedLine = some ("Foo", "bar", "2.0") from by decide]
    dsimp only
    rw [show findRemove (fun it => jsEndsWith it.id ("Foo" ++ "/" ++ "bar"))
        sampleStateT.testItems = some (sampleItemT, []) from by decide]
  · have h1 : jsToNumber "2.0" = some ((↑(2 : Nat) : ℚ) + (↑(0 : Nat) : ℚ) / 10 ^ 1) := rfl
    rw [h1]
    norm_num

theorem c2_grammarB_passed_event_witness :
    bPassedMatch samplePassedLine = some ("Foo", "bar", "2.0")
    ∧ pass2Line sampleStateT samplePassedLine
      = ({ testItems := [], currentTestItem := none },
         [SinkCall.passed sampleItemT (jsToNumber "2.0")]) :=
  ⟨by decide,
   c2_grammarB_passed_event sampleStateT samplePassedLine "Foo" "bar" "2.0" sampleItemT []
     (by decide) (by decide)⟩

/-- A matched Grammar B failure line with a successful pending lookup emits
exactly one failed event carrying the captured message verbatim, the
captured file, the printed line number itself as the 0-based row (the code
does not subtract one here), and column 0; the matched entry is removed and
CurrentItem cleared. -/
theorem pass1Line_failed_eq (ctx : FolderCtx) (st : ParseState)
    (line file num cls meth msg : String) (item : RunItem) (rest : List RunItem)
    (hstart : bStartedMatch line = none)
    (hm : bFailedMatch line = some (file, num, cls, meth, msg))
    (hfind : lookupWithTargetFallback ctx (cls ++ "/" ++ meth) file st.testItems
      = some (item, rest)) :
    pass1Line ctx st line
      = ({ testItems := rest, currentTestItem := none },
         [SinkCall.failed item msg file (parseIntNat num : Int) 0]) := by
  rw [pass1Line, hstart]
  dsimp only
  rw [hm]
  dsimp only
  rw [hfind]

/-- C9: a matched Grammar B failure line `<file>:<N>: error:
<class>.<method> : <message>` with a pending match yields a failed event
whose source location has 0-based row equal to the printed number `N`
itself and column 0, with the message taken verbatim from the final
capture. -/
theorem c9_failed_location_row (ctx : FolderCtx) (st : ParseState)
    (line file num cls meth msg : String) (item : RunItem) (rest : List RunItem)
    (hstart : bStartedMatch line = none)
    (hm : bFailedMatch line = some (file, num, cls, meth, msg))
    (hfind : lookupWithTargetFallback ctx (cls ++ "/" ++ meth) file st.testItems
      = some (item, rest)) :
    pass1Line ctx st line
      = ({ testItems := rest, currentTestItem := none },
         [SinkCall.failed item msg file (parseIntNat num : Int) 0]) :=
  pass1Line_failed_eq ctx st line file num cls meth msg item rest hstart hm hfind

/-- The pending test of the spec's Grammar B example. -/
def fooItem : RunItem := { id := "MyTarget/FooTests/testBar", targetLabel := some "MyTarget" }

def fooState : ParseState := { testItems := [fooItem], currentTestItem := none }

def myTarget : Target := { name := "MyTarget", path := "", sources := ["Tests/FooTests.swift"] }

def repoCtx : FolderCtx := { folderPath := "/repo", targets := [myTarget] }

def specExampleLine : String :=
  "/repo/Tests/FooTests.swift:10: error: FooTests.testBar : expected true"

theorem c9_failed_location_row_witness :
    bFailedMatch specExampleLine
      = some ("/repo/Tests/FooTests.swift", "10", "FooTests", "testBar", "expected true")
    ∧ pass1Line repoCtx fooState specExampleLine
      = ({ testItems := [], currentTestItem := none },
         [SinkCall.failed fooItem "expected true" "/repo/Tests/FooTests.swift" 10 0]) :=
  ⟨by decide,
   c9_failed_location_row repoCtx fooState specExampleLine "/repo/Tests/FooTests.swift"
     "10" "FooTests" "testBar" "expected true" fooItem [] (by decide) (by decide) (by decide)⟩

/-- C4: with two pending tests whose ids both end in the failure line's
class/method suffix, the disambiguated lookup picks the one whose
grandparent label names a target whose sources contain the failure's file
path made relative to the target's path; only that test is emitted as
failed and removed, the other remains pending. -/
theorem c4_grammarB_disambiguation (ctx : FolderCtx) (st : ParseState)
    (line file num cls meth msg lB : String) (itemA itemB : RunItem) (tB : Target)
    (hstart : bStartedMatch line = none)
    (hm : bFailedMatch line = some (file, num, cls, meth, msg))
    (hitems : st.testItems = [itemA, itemB])
    (hAno : isTestWithFilenameInTarget ctx (cls ++ "/" ++ meth) file itemA = false)
    (hBsuf : jsEndsWith itemB.id (cls ++ "/" ++ meth) = true)
    (hBlabel : itemB.targetLabel = some lB)
    (hBtarget : ctx.targets.find? (fun t => lB == t.name) = some tB)
    (hBsrc : tB.sources.any
      (fun src => src == pathRelative (pathJoin ctx.folderPath tB.path) file) = true) :
    pass1Line ctx st line
      = ({ testItems := [itemA], currentTestItem := none },
         [SinkCall.failed itemB msg file (parseIntNat num : Int) 0]) := by
  have hB : isTestWithFilenameInTarget ctx (cls ++ "/" ++ meth) file itemB = true := by
    rw [isTestWithFilenameInTarget, hBsuf]
    dsimp only
    rw [hBlabel]
    dsimp only
    rw [hBtarget]
    dsimp only
    exact hBsrc
  have hfind : lookupWithTargetFallback ctx (cls ++ "/" ++ meth) file st.testItems
      = some (itemB, [itemA]) := by
    rw [hitems, lookupWithTargetFallback]
    have h1 : findRemove (fun it => isTestWithFilenameInTarget ctx (cls ++ "/" ++ meth) file it)
        [itemA, itemB] = some (itemB, [itemA]) := by
      simp [findRemove, hAno, hB]
    rw [h1]
  exact pass1Line_failed_eq ctx st line file num cls meth msg itemB [itemA] hstart hm hfind

def sampleItemA : RunItem := { id := "TargetA/Foo/bar", targetLabel := some "TargetA" }

def sampleItemB : RunItem := { id := "TargetB/Foo/bar", targetLabel := some "TargetB" }

def sampleTargetA : Target :=
  { name := "TargetA", path := "Tests/ATests", sources := ["FooTests.swift"] }

def sampleTargetB : Target :=
  { name := "TargetB", path := "Tests/BTests", sources := ["FooTests.swift"] }

def pkgCtx : FolderCtx := { folderPath := "/pkg", targets := [sampleTargetA, sampleTargetB] }

def twoPendingState : ParseState :=
  { testItems := [sampleItemA, sampleItemB], currentTestItem := none }

def disambigFailLine : String := "/pkg/Tests/BTests/FooTests.swift:10: error: Foo.bar : oops"

theorem c4_grammarB_disambiguation_witness :
    bFailedMatch disambigFailLine
      = some ("/pkg/Tests/BTests/FooTests.swift", "10", "Foo", "bar", "oops")
    ∧ pass1Line pkgCtx twoPendingState disambigFailLine
      = ({ testItems := [sampleItemA], currentTestItem := none },
         [SinkCall.failed sampleItemB "oops" "/pkg/Tests/BTests/FooTests.swift" 10 0]) :=
  ⟨by decide,
   c4_grammarB_disambiguation pkgCtx twoPendingState disambigFailLine
     "/pkg/Tests/BTests/FooTests.swift" "10" "Foo" "bar" "oops" "TargetB"
     sampleItemA sampleItemB sampleTargetB (by decide) (by decide) (by decide) (by decide)
     (by decide) (by decide) (by decide) (by decide)⟩

theorem darwin_terminal_clears_current (st : ParseState) (line : String)
    (hstart : aStartedMatch line = none)
    (hterm : aPassedMatch line ≠ none ∨ aFailedMatch line ≠ none ∨ aSkippedMatch line ≠ none) :
    (parseLineDarwin st line).1.currentTestItem = none := by
  rw [parseLineDarwin, hstart]
  dsimp only
  cases hp : aPassedMatch line with
  | some r =>
      obtain ⟨t, c, d⟩ := r
      dsimp only
      split <;> rfl
  | none =>
      dsimp only
      cases hf : aFailedMatch line with
      | some r =>
          obtain ⟨file, num, t, c, msg⟩ := r
          dsimp only
          split <;> rfl
      | none =>
          dsimp only
          cases hs : aSkippedMatch line with
          | some r =>
              obtain ⟨file, num, t, c⟩ := r
              dsimp only
              split <;> rfl
          | none =>
              rcases hterm with h | h | h
              · exact absurd hp h
              · exact absurd hf h
              · exact absurd hs h

theorem darwin_started_not_found_keeps_state (st : ParseState) (line t c : String)
    (hstart : aStartedMatch line = some (t, c))
    (hfind : st.testItems.find? (fun item => item.id == t ++ "/" ++ c) = none) :
    (parseLineDarwin st line).1 = st := by
  rw [parseLineDarwin, hstart]
  dsimp only
  rw [hfind]

theorem nonDarwin_terminal_clears_current (ctx : FolderCtx) (st : ParseState) (line : String)
    (hstart : bStartedMatch line = none)
    (hterm : bFailedMatch line ≠ none ∨ bSkippedMatch line ≠ none) :
    (pass1Line ctx st line).1.currentTestItem = none := by
  rw [pass1Line, hstart]
  dsimp only
  cases hf : bFailedMatch line with
  | some r =>
      obtain ⟨file, num, cls, meth, msg⟩ := r
      dsimp only
      split <;> rfl
  | none =>
      dsimp only
      cases hs : bSkippedMatch line with
      | some r =>
          obtain ⟨file, num, cls, meth⟩ := r
          dsimp only
          split <;> rfl
      | none =>
          rcases hterm with h | h
          · exact absurd hf h
          · exact absurd hs h

theorem nonDarwin_started_not_found_keeps_state (ctx : FolderCtx) (st : ParseState)
    (line cls meth : String)
    (hstart : bStartedMatch line = some (cls, meth))
    (hfind : st.testItems.find? (fun item => jsEndsWith item.id (cls ++ "/" ++ meth)) = none) :
    (pass1Line ctx st line).1 = st := by
  rw [pass1Line, hstart]
  dsimp only
  rw [hfind]

theorem nonDarwin_passed_clears_current (st : ParseState) (line : String)
    (r : String × String × String) (hp : bPassedMatch line = some r) :
    (pass2Line st line).1.currentTestItem = none := by
  obtain ⟨cls, meth, dur⟩ := r
  rw [pass2Line, hp]
  dsimp only
  split <;> rfl

/-- C10: in both grammars, a line matched by a terminal-outcome pattern
(passed, failed or skipped — for Grammar B pass 1 failed/skipped, for
pass 2 passed) sets CurrentItem to `none` unconditionally, whether or not a
pending test was found; a matched started line whose id finds no pending
test leaves the whole parser state, CurrentItem included, unchanged. -/
theorem c10_terminal_clears_current :
    (∀ (st : ParseState) (line : String), aStartedMatch line = none →
      (aPassedMatch line ≠ none ∨ aFailedMatch line ≠ none ∨ aSkippedMatch line ≠ none) →
      (parseLineDarwin st line).1.currentTestItem = none)
    ∧ (∀ (st : ParseState) (line t c : String), aStartedMatch line = some (t, c) →
        st.testItems.find? (fun item => item.id == t ++ "/" ++ c) = none →
        (parseLineDarwin st line).1 = st)
    ∧ (∀ (ctx : FolderCtx) (st : ParseState) (line : String), bStartedMatch line = none →
        (bFailedMatch line ≠ none ∨ bSkippedMatch line ≠ none) →
        (pass1Line ctx st line).1.currentTestItem = none)
    ∧ (∀ (ctx : FolderCtx) (st : ParseState) (line cls meth : String),
        bStartedMatch line = some (cls, meth) →
        st.testItems.find? (fun item => jsEndsWith item.id (cls ++ "/" ++ meth)) = none →
        (pass1Line ctx st line).1 = st)
    ∧ (∀ (st : ParseState) (line : String) (r : String × String × String),
        bPassedMatch line = some r →
        (pass2Line st line).1.currentTestItem = none) :=
  ⟨darwin_terminal_clears_current, darwin_started_not_found_keeps_state,
   nonDarwin_terminal_clears_current, nonDarwin_started_not_found_keeps_state,
   nonDarwin_passed_clears_current⟩

/-- A parser state with an empty pending list but a set CurrentItem, to
exhibit the clearing behaviour. -/
def noPendingState : ParseState := { testItems := [], currentTestItem := some sampleItemT }

def darwinPassedLine : String :=
  "Test Case " ++ squote ++ "-[T Foo.bar]" ++ squote ++ " passed (1.0 seconds)"

def darwinStartedLine : String :=
  "Test Case " ++ squote ++ "-[T Foo.bar]" ++ squote ++ " started."

def bStartedLine : String :=
  "Test Case " ++ squote ++ "Foo.bar" ++ squote ++ " started"

theorem c10_terminal_clears_current_witness :
    (parseLineDarwin noPendingState darwinPassedLine).1.currentTestItem = none
    ∧ (parseLineDarwin noPendingState darwinStartedLine).1 = noPendingState
    ∧ (pass1Line emptyCtx noPendingState disambigFailLine).1.currentTestItem = none
    ∧ (pass1Line emptyCtx noPendingState bStartedLine).1 = noPendingState
    ∧ (pass2Line noPendingState samplePassedLine).1.currentTestItem = none :=
  ⟨c10_terminal_clears_current.1 noPendingState darwinPassedLine (by decide)
      (Or.inl (by decide)),
   c10_terminal_clears_current.2.1 noPendingState darwinStartedLine "T" "Foo.bar"
      (by decide) (by decide),
   c10_terminal_clears_current.2.2.1 emptyCtx noPendingState disambigFailLine (by decide)
      (Or.inl (by decide)),
   c10_terminal_clears_current.2.2.2.1 emptyCtx noPendingState bStartedLine "Foo" "bar"
      (by decide) (by decide),
   c10_terminal_clears_current.2.2.2.2 noPendingState samplePassedLine ("Foo", "bar", "2.0")
      (by decide)⟩

def isEnded : SinkCall → Bool
  | SinkCall.ended => true
  | _ => false

theorem handleCatch_ended_once (e : JsError) (cur : Option RunItem) :
    (handleCatch e cur).countP isEnded = 1 := by
  rw [handleCatch.eq_def]
  split
  · rfl
  · cases cur <;> simp [isEnded]

/-- C5: for every combination of build outcome (exception, undefined exit,
non-zero exit, success), session outcome (normal return — which covers
cancellation, since a cancelled session returns normally — classified
command failure, or any other exception) and current item, `runHandler`
makes exactly one `end()` call on the sink. -/
theorem c5_end_exactly_once (testItems : List RunItem)
    (buildResult : Except JsError (Option Int)) (sessionResult : Except JsError Unit)
    (currentAtCatch : Option RunItem) :
    (runHandler testItems buildResult sessionResult currentAtCatch).countP isEnded = 1 := by
  rw [runHandler.eq_def]
  cases buildResult with
  | error e => exact handleCatch_ended_once e currentAtCatch
  | ok exitCode =>
      cases exitCode with
      | none => rfl
      | some code =>
          dsimp only
          split
          · rfl
          · simp only [List.countP_append]
            have h1 : (testItems.map SinkCall.enqueued).countP isEnded = 0 := by
              induction testItems with
              | nil => rfl
              | cons x xs ih => simp [List.countP_cons, isEnded, ih]
            cases sessionResult with
            | ok u => simp [h1, isEnded]
            | error e => rw [h1, handleCatch_ended_once e currentAtCatch]

/-- C6 (amended): an exception not classified as a command-failure reaching
the catch block while a CurrentItem is set makes the runner call
`errored` (not `failed`) on that item with the error description, append
`\r\nError: <description>` to the sink output, and end the run normally with
a single final `end()`. -/
theorem c6_unclassified_error_reporting (testItems : List RunItem) (e : JsError)
    (item : RunItem) (current : Option RunItem)
    (hclass : e.isCommandFailed = false) (hcur : current = some item) :
    runHandler testItems (Except.ok (some 0)) (Except.error e) current
      = testItems.map SinkCall.enqueued ++
        [SinkCall.errored item e.description,
         SinkCall.appendOutput ("\r\nError: " ++ e.description), SinkCall.ended] := by
  rw [runHandler.eq_def]
  dsimp only
  rw [if_neg (by decide)]
  rw [handleCatch.eq_def, hclass, hcur]
  dsimp only
  rfl

def boomError : JsError := { innerMessage := none, description := "boom" }

/-- C6 counterexample: for an unclassified exception with description
`boom` and CurrentItem set, the emitted trace contains an `errored` call and
no `failed` call at all — the item is errored, not "marked failed" as the
claim states. -/
theorem c6_errored_not_failed_counterexample :
    SinkCall.errored sampleItemT "boom"
      ∈ runHandler [] (Except.ok (some 0)) (Except.error boomError) (some sampleItemT)
    ∧ ∀ e ∈ runHandler [] (Except.ok (some 0)) (Except.error boomError) (some sampleItemT),
        isFailedFor sampleItemT e = false := by
  decide

theorem c6_unclassified_error_reporting_witness :
    runHandler [] (Except.ok (some 0)) (Except.error boomError) (some sampleItemT)
      = [SinkCall.errored sampleItemT boomError.description,
         SinkCall.appendOutput ("\r\nError: " ++ boomError.description), SinkCall.ended] :=
  c6_unclassified_error_reporting [] boomError sampleItemT (some sampleItemT)
    (by decide) (by decide)
